import Mathlib

/-!
Verification of the compliance-scoring and report-assembly pipeline of the
`llm-powered-policy-gap-analysis` repository.

The Python sources (`src/utils.py`, `src/document_loader.py`) are shallowly
embedded below: text is modelled as `List Char`, the Python builtins
`str.lower`, `str.count`, the `in` substring test and `str.strip` are given
explicit executable definitions, and the repository's functions
(`ComplianceScorer.calculate_score`, `_get_risk_level`,
`ExecutiveSummary.generate`, `ResultExporter.export_to_markdown`'s content
builder, `DocumentLoader._clean_text`) are translated line by line.
Calls to `datetime.now()` are modelled by passing the formatted date/time
string as an explicit argument.
-/

namespace PolicyGap

/-- Python `str.lower()` restricted to the character-wise case mapping:
each character is lower-cased independently. -/
def pyLower (s : List Char) : List Char :=
  s.map Char.toLower

/-- Auxiliary scanner for Python `str.count`: `countSubAux p s skip` counts the
non-overlapping occurrences of `p` in `s`, with the first `skip` characters of
`s` still to be skipped (they belong to a previously counted occurrence). -/
def countSubAux (p : List Char) : List Char → Nat → Nat
  | [], _ => 0
  | c :: t, 0 =>
    if p.isPrefixOf (c :: t) then countSubAux p t (p.length - 1) + 1
    else countSubAux p t 0
  | _ :: t, k + 1 => countSubAux p t k

/-- Python `str.count(sub)`: the number of non-overlapping occurrences of
`sub`, scanning left to right (after each match the scan resumes right after
the matched block).  For the empty pattern Python returns `len(s) + 1`. -/
def countSub (p s : List Char) : Nat :=
  if p = [] then s.length + 1 else countSubAux p s 0

/-- The number of positions at which `p` occurs in `s`; occurrences at
different positions may overlap.  This is the "possibly overlapping naive
substring count" used by the specification. -/
def countPos (p : List Char) : List Char → Nat
  | [] => if p = [] then 1 else 0
  | c :: t => (if p.isPrefixOf (c :: t) then 1 else 0) + countPos p t

/-- Python `sub in s`: substring containment test. -/
def pyIn (p s : List Char) : Bool :=
  p.isPrefixOf s ||
    match s with
    | [] => false
    | _ :: t => pyIn p t

/-- A pattern is border-free when no proper nonempty prefix of it is also a
suffix.  Occurrences of a border-free pattern can never overlap, so for such
patterns Python's non-overlapping `str.count` agrees with the naive
possibly-overlapping count. -/
def borderFree (p : List Char) : Prop :=
  ∀ k, 0 < k → k < p.length → p.take k ≠ p.drop (p.length - k)

/-- Executable check for `borderFree`. -/
def borderFreeB (p : List Char) : Bool :=
  (List.range p.length).all fun k =>
    decide (k = 0) || decide (p.take k ≠ p.drop (p.length - k))

theorem borderFree_of_borderFreeB {p : List Char} (h : borderFreeB p = true) :
    borderFree p := by
  intro k hk0 hk
  have hmem := List.all_eq_true.mp h k (List.mem_range.mpr hk)
  simp only [Bool.or_eq_true, decide_eq_true_eq] at hmem
  rcases hmem with h0 | hne
  · omega
  · exact hne

/-- `l₁.isPrefixOf l₂` holds exactly when `l₂` extends `l₁` on the right. -/
theorem isPrefixOf_iff_append {p : List Char} :
    ∀ {s : List Char}, p.isPrefixOf s = true ↔ ∃ r, p ++ r = s := by
  induction p with
  | nil =>
    intro s
    simp [List.isPrefixOf]
  | cons a as ih =>
    intro s
    cases s with
    | nil =>
      simp [List.isPrefixOf]
    | cons b bs =>
      simp only [List.isPrefixOf, Bool.and_eq_true, beq_iff_eq, ih,
        List.cons_append, List.cons.injEq]
      constructor
      · rintro ⟨hab, r, hr⟩
        exact ⟨r, hab, hr⟩
      · rintro ⟨r, hab, hr⟩
        exact ⟨hab, r, hr⟩

theorem length_le_of_isPrefixOf {p s : List Char} (h : p.isPrefixOf s = true) :
    p.length ≤ s.length := by
  obtain ⟨r, hr⟩ := isPrefixOf_iff_append.mp h
  subst hr
  simp

/-! ## `src/utils.py`: `ComplianceScorer` -/

/-- `utils.py` line 33: keywords indicating critical severity. -/
def critical_keywords : List (List Char) :=
  ["critical", "severe", "urgent", "missing", "absent", "mandatory"].map String.toList

/-- `utils.py` line 34: keywords indicating high severity. -/
def high_keywords : List (List Char) :=
  ["high risk", "significant", "important", "required"].map String.toList

/-- `utils.py` line 35: keywords indicating medium severity. -/
def medium_keywords : List (List Char) :=
  ["medium", "moderate", "should", "recommended"].map String.toList

/-- `utils.py` line 36: keywords indicating low severity. -/
def low_keywords : List (List Char) :=
  ["low", "minor", "optional", "suggested"].map String.toList

/-- The `breakdown` sub-dictionary of a compliance score. -/
structure Breakdown where
  critical : Nat
  high : Nat
  medium : Nat
  low : Nat
deriving DecidableEq

/-- The dictionary returned by `ComplianceScorer.calculate_score`. -/
structure ComplianceScore where
  compliance_score : Int
  compliance_percentage : String
  total_gaps : Nat
  breakdown : Breakdown
  risk_level : String
deriving DecidableEq

/-- `utils.py` lines 250-261: risk level string from compliance score. -/
def _get_risk_level (score : Int) : String :=
  if score ≥ 90 then "Very Low"
  else if score ≥ 80 then "Low"
  else if score ≥ 70 then "Moderate"
  else if score ≥ 60 then "High"
  else "Critical"

/-- `utils.py` lines 47-59 as a function of the four bucket counts: the
numeric score computed from a breakdown (`100` when there are no issues,
otherwise `100` minus the weighted deduction, clamped below at `0`). -/
def scoreFromBreakdown (b : Breakdown) : Int :=
  if b.critical + b.high + b.medium + b.low = 0 then 100
  else
    max 0 (100 -
      ((b.critical : Int) * 10 + (b.high : Int) * 5 + (b.medium : Int) * 2 + (b.low : Int) * 1))

namespace ComplianceScorer

/-- `utils.py` lines 22-72: `ComplianceScorer.calculate_score`. -/
def calculate_score (gap_analysis_text : List Char) : ComplianceScore :=
  let text_lower := pyLower gap_analysis_text
  let critical_count := (critical_keywords.map fun kw => countSub kw text_lower).sum
  let high_count := (high_keywords.map fun kw => countSub kw text_lower).sum
  let medium_count := (medium_keywords.map fun kw => countSub kw text_lower).sum
  let low_count := (low_keywords.map fun kw => countSub kw text_lower).sum
  let total_issues := critical_count + high_count + medium_count + low_count
  let compliance_score : Int :=
    if total_issues = 0 then 100
    else
      max 0 (100 -
        ((critical_count : Int) * 10 + (high_count : Int) * 5 +
          (medium_count : Int) * 2 + (low_count : Int) * 1))
  { compliance_score := compliance_score
    compliance_percentage := toString compliance_score ++ "%"
    total_gaps := total_issues
    breakdown :=
      { critical := critical_count
        high := high_count
        medium := medium_count
        low := low_count }
    risk_level := _get_risk_level compliance_score }

end ComplianceScorer

/-! ## `src/utils.py`: `ExecutiveSummary` -/

/-- `utils.py` line 240: timeline line emitted when there are critical gaps. -/
def tlImmediate : String := "- **Immediate (0-30 days):** Address critical security gaps\n"

/-- `utils.py` line 242: timeline line emitted when there are high gaps. -/
def tlShortTerm : String := "- **Short-term (1-3 months):** Implement high-priority improvements\n"

/-- `utils.py` line 244: timeline line emitted when there are medium gaps. -/
def tlMediumTerm : String := "- **Medium-term (3-6 months):** Complete medium-priority enhancements\n"

/-- `utils.py` line 245: timeline line always emitted at the end of the block. -/
def tlLongTerm : String := "- **Long-term (6-12 months):** Continuous improvement and monitoring\n\n"

/-- `utils.py` lines 238-245: the strings appended for the
`## Recommended Timeline` block, as a function of the severity breakdown. -/
def timelineLines (breakdown : Breakdown) : List String :=
  (if breakdown.critical > 0 then [tlImmediate] else []) ++
    (if breakdown.high > 0 then [tlShortTerm] else []) ++
    (if breakdown.medium > 0 then [tlMediumTerm] else []) ++
    [tlLongTerm]

namespace ExecutiveSummary

/-- `utils.py` lines 196-247: `ExecutiveSummary.generate`.  The call to
`datetime.now().strftime('%B %d, %Y')` is modelled by the explicit `today`
argument. -/
def generate (today : String) (gap_analysis : List Char)
    (compliance_score : ComplianceScore) : String :=
  let assessment :=
    if compliance_score.compliance_score ≥ 80 then
      "Your organization's cybersecurity policy demonstrates strong compliance with industry standards."
    else if compliance_score.compliance_score ≥ 60 then
      "Your organization's cybersecurity policy shows moderate compliance but requires significant improvements."
    else
      "Your organization's cybersecurity policy has critical gaps that expose you to substantial security risks."
  String.join
    (["# EXECUTIVE SUMMARY\n",
      "**Date:** " ++ today ++ "\n\n",
      "## Overall Assessment\n\n" ++ assessment ++ "\n\n",
      "## Key Metrics\n\n",
      "- **Compliance Score:** " ++ compliance_score.compliance_percentage ++ "\n",
      "- **Risk Level:** " ++ compliance_score.risk_level ++ "\n",
      "- **Total Gaps Identified:** " ++ toString compliance_score.total_gaps ++ "\n",
      "- **Critical Issues:** " ++ toString compliance_score.breakdown.critical ++ "\n\n",
      "## Priority Recommendations\n\n"] ++
      (if pyIn "top 5".toList (pyLower gap_analysis) ||
          pyIn "priority".toList (pyLower gap_analysis) then
        ["Critical gaps requiring immediate attention have been identified. "]
      else []) ++
      ["Please refer to the detailed gap analysis and remediation plan for specific actions.\n\n",
        "## Recommended Timeline\n\n"] ++
      timelineLines compliance_score.breakdown)

end ExecutiveSummary

/-! ## `src/utils.py`: `ResultExporter.export_to_markdown` -/

/-- The result collection handed to the exporter: the optional keys of the
`results` dictionary that `export_to_markdown` reads. -/
structure AnalysisResults where
  framework : Option String
  model_used : Option String
  compliance_score : Option ComplianceScore
  analysis : Option String
  remediation : Option String

namespace ResultExporter

/-- `utils.py` lines 134-183: the `content` list built by
`ResultExporter.export_to_markdown` before it is joined and written to disk.
`datetime.now().strftime('%Y-%m-%d %H:%M:%S')` is modelled by the explicit
`now` argument. -/
def export_md_content (now : String) (results : AnalysisResults)
    (include_score : Bool) : List String :=
  ["# Policy Gap Analysis Report\n",
    "**Generated:** " ++ now ++ "\n"] ++
  (match results.framework with
    | some f => ["**Framework:** " ++ f ++ "\n"]
    | none => []) ++
  (match results.model_used with
    | some m => ["**AI Model:** " ++ m ++ "\n"]
    | none => []) ++
  ["\n---\n\n"] ++
  (match include_score, results.compliance_score with
    | true, some score_data =>
      ["## Compliance Score\n\n",
        "- **Overall Compliance:** " ++ score_data.compliance_percentage ++ "\n",
        "- **Risk Level:** " ++ score_data.risk_level ++ "\n",
        "- **Total Gaps:** " ++ toString score_data.total_gaps ++ "\n",
        "  - Critical: " ++ toString score_data.breakdown.critical ++ "\n",
        "  - High: " ++ toString score_data.breakdown.high ++ "\n",
        "  - Medium: " ++ toString score_data.breakdown.medium ++ "\n",
        "  - Low: " ++ toString score_data.breakdown.low ++ "\n\n",
        "---\n\n"]
    | _, _ => []) ++
  (match results.analysis with
    | some a => ["## Gap Analysis\n\n", a, "\n\n"]
    | none => []) ++
  (match results.remediation with
    | some r => ["## Remediation Plan\n\n", r, "\n\n"]
    | none => []) ++
  ["\n---\n\n",
    "*Generated by Policy Gap Analysis Tool - HACK IITK 2026*\n"]

/-- The text written to disk by `export_to_markdown` (`''.join(content)`). -/
def export_to_markdown (now : String) (results : AnalysisResults)
    (include_score : Bool) : String :=
  String.join (export_md_content now results include_score)

end ResultExporter

/-! ## `src/document_loader.py`: `DocumentLoader._clean_text` -/

/-- The whitespace class stripped by Python `str.strip()` (ASCII part). -/
def isPySpace (c : Char) : Bool :=
  [' ', '\t', '\n', '\r', '\x0b', '\x0c'].contains c

/-- Python `line.strip()`: remove leading and trailing whitespace. -/
def pyStrip (l : List Char) : List Char :=
  List.rdropWhile isPySpace (List.dropWhile isPySpace l)

/-- `document_loader.py` lines 197-204: the loop body of `_clean_text`.
`cleanLines lines prev_blank` strips every line, keeps the nonblank ones and
collapses each run of blank lines to a single empty line (`prev_blank` is the
loop's flag). -/
def cleanLines : List (List Char) → Bool → List (List Char)
  | [], _ => []
  | l :: rest, prev_blank =>
    let line := pyStrip l
    if line ≠ [] then line :: cleanLines rest false
    else if prev_blank then cleanLines rest true
    else [] :: cleanLines rest true

/-- `document_loader.py` lines 182-206: `DocumentLoader._clean_text`
(`text.split('\n')`, the cleaning loop, `'\n'.join(cleaned_lines)`). -/
def _clean_text (text : List Char) : List Char :=
  let lines := text.splitOn '\n'
  List.intercalate ['\n'] (cleanLines lines false)

/-! ## Lemmas about the substring counters -/

theorem countSubAux_skip (p : List Char) :
    ∀ (s : List Char) (k : Nat), countSubAux p s k = countSubAux p (s.drop k) 0 := by
  intro s
  induction s with
  | nil => intro k; simp [countSubAux]
  | cons c t ih =>
    intro k
    cases k with
    | zero => rfl
    | succ k => simpa [countSubAux] using ih k

theorem countSub_nil {p : List Char} (hp : p ≠ []) : countSub p [] = 0 := by
  simp [countSub, hp, countSubAux]

theorem countSub_cons_pos {p : List Char} (hp : p ≠ []) {c : Char} {t : List Char}
    (h : p.isPrefixOf (c :: t) = true) :
    countSub p (c :: t) = countSub p ((c :: t).drop p.length) + 1 := by
  obtain ⟨a, as, rfl⟩ : ∃ a as, p = a :: as := by
    cases p with
    | nil => exact absurd rfl hp
    | cons a as => exact ⟨a, as, rfl⟩
  simp only [countSub, List.length_cons, reduceCtorEq, if_false, List.drop_succ_cons]
  rw [show countSubAux (a :: as) (c :: t) 0 =
      if (a :: as).isPrefixOf (c :: t) then countSubAux (a :: as) t ((a :: as).length - 1) + 1
      else countSubAux (a :: as) t 0 from rfl]
  rw [if_pos h]
  simp [countSubAux_skip]

theorem countSub_cons_neg {p : List Char} (hp : p ≠ []) {c : Char} {t : List Char}
    (h : ¬ p.isPrefixOf (c :: t) = true) :
    countSub p (c :: t) = countSub p t := by
  simp only [countSub, hp, if_false]
  rw [show countSubAux p (c :: t) 0 =
      if p.isPrefixOf (c :: t) then countSubAux p t (p.length - 1) + 1
      else countSubAux p t 0 from rfl]
  rw [if_neg h]

theorem countPos_nil {p : List Char} (hp : p ≠ []) : countPos p [] = 0 := by
  simp [countPos, hp]

theorem countPos_cons (p : List Char) (c : Char) (t : List Char) :
    countPos p (c :: t) = (if p.isPrefixOf (c :: t) then 1 else 0) + countPos p t :=
  rfl

/-- Peeling occurrence-free positions off the front does not change the
number of occurrence positions. -/
theorem countPos_drop_of_no_hit (p u : List Char) :
    ∀ k, (∀ i, i < k → ¬ p.isPrefixOf (u.drop i) = true) →
      countPos p u = countPos p (u.drop k) := by
  intro k
  induction k with
  | zero => intro _; rfl
  | succ k ih =>
    intro h
    rw [ih fun i hi => h i (Nat.lt_succ_of_lt hi)]
    rcases hd : u.drop k with _ | ⟨c, t⟩
    · have : u.drop (k + 1) = [] := by
        rw [← List.tail_drop, hd]
        rfl
      rw [this]
    · have ht : t = u.drop (k + 1) := by
        rw [← List.tail_drop, hd]
        rfl
      rw [countPos_cons, if_neg (hd ▸ h k (Nat.lt_succ_self k)), ht]
      omega

/-- A border-free pattern that occurs at position `0` cannot also occur at a
position `i` with `0 < i < p.length`: otherwise the two occurrences would
overlap and exhibit a border of `p`. -/
theorem no_overlapping_hit {p s : List Char} (hb : borderFree p)
    (hpre : p.isPrefixOf s = true) {i : Nat} (h0 : 0 < i) (hi : i < p.length) :
    ¬ p.isPrefixOf (s.drop i) = true := by
  intro hcon
  obtain ⟨r, rfl⟩ := isPrefixOf_iff_append.mp hpre
  obtain ⟨r₂, h₂⟩ := isPrefixOf_iff_append.mp hcon
  have hdrop : (p ++ r).drop i = p.drop i ++ r := by
    rw [List.drop_append_eq_append_drop, Nat.sub_eq_zero_of_le (Nat.le_of_lt hi), List.drop_zero]
  rw [hdrop] at h₂
  have htake : p.take (p.length - i) = p.drop i := by
    have h₃ := congrArg (List.take (p.length - i)) h₂
    rw [List.take_append_eq_append_take, List.take_append_eq_append_take] at h₃
    have hlen : (p.drop i).length = p.length - i := by simp
    rw [Nat.sub_eq_zero_of_le (by omega : p.length - i ≤ p.length),
      Nat.sub_eq_zero_of_le (by omega : p.length - i ≤ (p.drop i).length)] at h₃
    simp only [List.take_zero, List.append_nil] at h₃
    rw [List.take_of_length_le (by omega : (p.drop i).length ≤ p.length - i)] at h₃
    exact h₃
  have h0' : 0 < p.length - i := by omega
  have hlt : p.length - i < p.length := by omega
  have := hb (p.length - i) h0' hlt
  rw [show p.length - (p.length - i) = i by omega] at this
  exact this htake

/-- For a border-free pattern an occurrence at the front accounts for exactly
one occurrence position, and the remaining positions all lie past it. -/
theorem countPos_of_head_hit {p s : List Char} (hb : borderFree p) (hp : p ≠ [])
    (hpre : p.isPrefixOf s = true) :
    countPos p s = countPos p (s.drop p.length) + 1 := by
  obtain ⟨a, as, rfl⟩ : ∃ a as, p = a :: as := by
    cases p with
    | nil => exact absurd rfl hp
    | cons a as => exact ⟨a, as, rfl⟩
  rcases s with _ | ⟨c, t⟩
  · simp [List.isPrefixOf] at hpre
  · rw [countPos_cons, if_pos hpre]
    have hpeel : countPos (a :: as) t = countPos (a :: as) (t.drop ((a :: as).length - 1)) := by
      apply countPos_drop_of_no_hit
      intro i hi
      have : t.drop i = (c :: t).drop (i + 1) := rfl
      rw [this]
      exact no_overlapping_hit hb hpre (Nat.succ_pos i) (by simp at hi ⊢; omega)
    rw [hpeel]
    have : t.drop ((a :: as).length - 1) = (c :: t).drop (a :: as).length := by
      simp
    rw [this]
    omega

/-- Python's non-overlapping `str.count` agrees with the possibly-overlapping
position count on border-free patterns. -/
theorem countSub_eq_countPos {p : List Char} (hp : p ≠ []) (hb : borderFree p)
    (s : List Char) : countSub p s = countPos p s := by
  have key : ∀ n, ∀ s : List Char, s.length ≤ n → countSub p s = countPos p s := by
    intro n
    induction n with
    | zero =>
      intro s hs
      obtain rfl : s = [] := List.eq_nil_of_length_eq_zero (Nat.le_zero.mp hs)
      rw [countSub_nil hp, countPos_nil hp]
    | succ n ih =>
      intro s hs
      rcases s with _ | ⟨c, t⟩
      · rw [countSub_nil hp, countPos_nil hp]
      · by_cases hpre : p.isPrefixOf (c :: t) = true
        · rw [countSub_cons_pos hp hpre, countPos_of_head_hit hb hp hpre]
          have hlen : ((c :: t).drop p.length).length ≤ n := by
            have h1 : 1 ≤ p.length := by
              cases p with
              | nil => exact absurd rfl hp
              | cons _ _ => simp
            simp only [List.length_drop, List.length_cons] at *
            omega
          rw [ih _ hlen]
        · rw [countSub_cons_neg hp hpre, countPos_cons, if_neg hpre,
            ih t (by simp only [List.length_cons] at hs; omega)]
          omega
  exact key s.length s le_rfl

/-- If the pattern does not occur anywhere in `s`, Python's count is `0`. -/
theorem countSub_eq_zero_of_not_infix {p : List Char} (hp : p ≠ []) :
    ∀ {s : List Char}, ¬ p <:+: s → countSub p s = 0 := by
  intro s
  induction s with
  | nil => intro _; exact countSub_nil hp
  | cons c t ih =>
    intro h
    by_cases hpre : p.isPrefixOf (c :: t) = true
    · obtain ⟨r, hr⟩ := isPrefixOf_iff_append.mp hpre
      exact absurd ⟨[], r, by simpa using hr⟩ h
    · rw [countSub_cons_neg hp hpre]
      apply ih
      intro ⟨u, v, huv⟩
      exact h ⟨c :: u, v, by rw [← huv]; rfl⟩

/-- Every severity marker of `utils.py` is a nonempty phrase. -/
theorem all_keywords_ne_nil :
    ∀ q ∈ critical_keywords ++ high_keywords ++ medium_keywords ++ low_keywords,
      q ≠ [] := by
  decide

/-- All critical markers are border-free. -/
theorem critical_keywords_borderFree : ∀ q ∈ critical_keywords, borderFreeB q = true := by
  decide

/-- All high markers are border-free. -/
theorem high_keywords_borderFree : ∀ q ∈ high_keywords, borderFreeB q = true := by
  decide

/-- All low markers are border-free. -/
theorem low_keywords_borderFree : ∀ q ∈ low_keywords, borderFreeB q = true := by
  decide

/-- Dropping a prefix of the text can only lose occurrence positions. -/
theorem countPos_drop_le (p u : List Char) : ∀ k, countPos p (u.drop k) ≤ countPos p u := by
  intro k
  induction k with
  | zero => exact Nat.le_refl _
  | succ k ih =>
    refine Nat.le_trans ?_ ih
    rcases hd : u.drop k with _ | ⟨c, t⟩
    · have : u.drop (k + 1) = [] := by
        rw [← List.tail_drop, hd]
        rfl
      rw [this]
    · have ht : u.drop (k + 1) = t := by
        rw [← List.tail_drop, hd]
        rfl
      rw [ht, countPos_cons]
      omega

/-- Python's non-overlapping count never exceeds the possibly-overlapping
position count. -/
theorem countSub_le_countPos {p : List Char} (hp : p ≠ []) (s : List Char) :
    countSub p s ≤ countPos p s := by
  have key : ∀ n, ∀ s : List Char, s.length ≤ n → countSub p s ≤ countPos p s := by
    intro n
    induction n with
    | zero =>
      intro s hs
      obtain rfl : s = [] := List.eq_nil_of_length_eq_zero (Nat.le_zero.mp hs)
      rw [countSub_nil hp, countPos_nil hp]
    | succ n ih =>
      intro s hs
      rcases s with _ | ⟨c, t⟩
      · rw [countSub_nil hp, countPos_nil hp]
      · by_cases hpre : p.isPrefixOf (c :: t) = true
        · rw [countSub_cons_pos hp hpre, countPos_cons, if_pos hpre]
          have h1 : 1 ≤ p.length := by
            cases p with
            | nil => exact absurd rfl hp
            | cons _ _ => simp
          have hdrop : (c :: t).drop p.length = t.drop (p.length - 1) := by
            rcases hl : p.length with _ | m
            · omega
            · simp
          have hle : countSub p ((c :: t).drop p.length) ≤ countPos p t := by
            rw [hdrop]
            refine Nat.le_trans (ih _ ?_) (countPos_drop_le p t (p.length - 1))
            simp only [List.length_cons] at hs
            simp only [List.length_drop]
            omega
          omega
        · rw [countSub_cons_neg hp hpre, countPos_cons, if_neg hpre]
          have := ih t (by simp only [List.length_cons] at hs; omega)
          omega
  exact key s.length s le_rfl

/-! ## Lemmas about `_clean_text` -/

theorem rdropWhile_isPrefix (p : Char → Bool) (l : List Char) :
    ∃ t, List.rdropWhile p l ++ t = l :=
  List.rdropWhile_prefix p l

theorem pyStrip_nil : pyStrip [] = [] :=
  rfl

theorem pyStrip_idem (l : List Char) : pyStrip (pyStrip l) = pyStrip l := by
  unfold pyStrip
  set u := List.dropWhile isPySpace l with hu
  have hufix : List.dropWhile isPySpace u = u := List.dropWhile_idempotent isPySpace l
  have hfront : List.dropWhile isPySpace (List.rdropWhile isPySpace u) =
      List.rdropWhile isPySpace u := by
    obtain ⟨w, hw⟩ := rdropWhile_isPrefix isPySpace u
    rcases hv : List.rdropWhile isPySpace u with _ | ⟨a, as⟩
    · rfl
    · rw [hv] at hw
      have hcon : List.dropWhile isPySpace ((a :: as) ++ w) = (a :: as) ++ w := by
        rw [hw]
        exact hufix
      have ha : ¬ isPySpace a = true := by
        intro ha
        rw [List.cons_append, List.dropWhile_cons, if_pos ha] at hcon
        have hlen := congrArg List.length hcon
        have hle : (List.dropWhile isPySpace (as ++ w)).length ≤ (as ++ w).length :=
          (List.dropWhile_suffix isPySpace).sublist.length_le
        simp only [List.length_cons] at hlen
        omega
      rw [List.dropWhile_cons, if_neg ha]
  rw [hfront]
  exact List.rdropWhile_idempotent isPySpace u

theorem mem_pyStrip {c : Char} {l : List Char} (h : c ∈ pyStrip l) : c ∈ l := by
  unfold pyStrip at h
  obtain ⟨w, hw⟩ := rdropWhile_isPrefix isPySpace (List.dropWhile isPySpace l)
  have h1 : c ∈ List.dropWhile isPySpace l := by
    rw [← hw]
    exact List.mem_append_left w h
  exact (List.dropWhile_suffix isPySpace).subset h1

/-- Every piece produced by `splitOnP` consists of elements that do not
satisfy the splitting predicate. -/
theorem splitOnP_pieces (p : Char → Bool) :
    ∀ xs : List Char, ∀ l ∈ xs.splitOnP p, ∀ c ∈ l, ¬ p c = true := by
  intro xs
  induction xs with
  | nil =>
    intro l hl c hc
    simp only [List.splitOnP_nil, List.mem_singleton] at hl
    subst hl
    simp at hc
  | cons x xs ih =>
    intro l hl c hc
    rw [List.splitOnP_cons] at hl
    by_cases hx : p x = true
    · rw [if_pos hx] at hl
      rcases List.mem_cons.mp hl with h | h
      · subst h
        simp at hc
      · exact ih l h c hc
    · rw [if_neg hx] at hl
      rcases hsp : xs.splitOnP p with _ | ⟨hd, tl⟩
      · exact absurd hsp (List.splitOnP_ne_nil p xs)
      · rw [hsp] at hl
        simp only [List.modifyHead, List.mem_cons] at hl
        rcases hl with h | h
        · subst h
          rcases List.mem_cons.mp hc with rfl | hc'
          · exact hx
          · exact ih hd (by rw [hsp]; exact List.mem_cons_self hd tl) c hc'
        · exact ih l (by rw [hsp]; exact List.mem_cons_of_mem hd h) c hc

theorem splitOn_sep_not_mem (a : Char) (xs : List Char) :
    ∀ l ∈ xs.splitOn a, a ∉ l := by
  intro l hl hmem
  have : xs.splitOn a = xs.splitOnP (· == a) := rfl
  rw [this] at hl
  exact splitOnP_pieces (· == a) xs l hl a hmem (beq_self_eq_true a)

theorem cleanLines_ne_nil {ls : List (List Char)} (h : ls ≠ []) :
    cleanLines ls false ≠ [] := by
  rcases ls with _ | ⟨l, rest⟩
  · exact absurd rfl h
  · simp only [cleanLines]
    by_cases hl : pyStrip l ≠ []
    · rw [if_pos hl]
      simp
    · rw [if_neg hl, if_neg (by simp)]
      simp

theorem cleanLines_stripped :
    ∀ (ls : List (List Char)) (b : Bool), ∀ x ∈ cleanLines ls b, pyStrip x = x := by
  intro ls
  induction ls with
  | nil =>
    intro b x hx
    simp [cleanLines] at hx
  | cons l rest ih =>
    intro b x hx
    simp only [cleanLines] at hx
    by_cases hl : pyStrip l ≠ []
    · rw [if_pos hl] at hx
      rcases List.mem_cons.mp hx with rfl | hx'
      · exact pyStrip_idem l
      · exact ih false x hx'
    · rw [if_neg hl] at hx
      by_cases hb : b = true
      · rw [if_pos hb] at hx
        exact ih true x hx
      · rw [if_neg hb] at hx
        rcases List.mem_cons.mp hx with rfl | hx'
        · exact pyStrip_nil
        · exact ih true x hx'

theorem cleanLines_no_two_blanks :
    ∀ (ls : List (List Char)) (b : Bool),
      List.Chain' (fun x y : List Char => x ≠ [] ∨ y ≠ []) (cleanLines ls b) ∧
        (b = true → (cleanLines ls b).head? ≠ some []) := by
  intro ls
  induction ls with
  | nil =>
    intro b
    simp [cleanLines]
  | cons l rest ih =>
    intro b
    simp only [cleanLines]
    by_cases hl : pyStrip l ≠ []
    · rw [if_pos hl]
      refine ⟨List.chain'_cons'.mpr ⟨fun y _ => Or.inl hl, (ih false).1⟩, ?_⟩
      intro _ hcon
      simp only [List.head?_cons, Option.some.injEq] at hcon
      exact hl hcon
    · rw [if_neg hl]
      by_cases hb : b = true
      · rw [if_pos hb]
        subst hb
        exact ih true
      · rw [if_neg hb]
        refine ⟨List.chain'_cons'.mpr ⟨fun y hy => Or.inr ?_, (ih true).1⟩, ?_⟩
        · intro hcon
          subst hcon
          exact (ih true).2 rfl hy
        · intro hcon
          exact absurd hcon hb

theorem cleanLines_id :
    ∀ ls : List (List Char), (∀ x ∈ ls, pyStrip x = x) →
      List.Chain' (fun x y : List Char => x ≠ [] ∨ y ≠ []) ls →
      ∀ b : Bool, (b = true → ls.head? ≠ some []) → cleanLines ls b = ls := by
  intro ls
  induction ls with
  | nil =>
    intro _ _ b _
    rfl
  | cons l rest ih =>
    intro hfix hch b hb
    have hl : pyStrip l = l := hfix l (List.mem_cons_self l rest)
    have hch' := List.chain'_cons'.mp hch
    simp only [cleanLines, hl]
    by_cases hnil : l ≠ []
    · rw [if_pos hnil]
      rw [ih (fun x hx => hfix x (List.mem_cons_of_mem l hx)) hch'.2 false (by simp)]
    · rw [if_neg hnil]
      have hlnil : l = [] := not_not.mp hnil
      have hbf : b = false := by
        cases b with
        | false => rfl
        | true =>
          exact absurd (by rw [hlnil]; rfl) (hb rfl)
      subst hbf
      rw [if_neg (by simp)]
      have hhead : rest.head? ≠ some [] := by
        intro hcon
        rcases hrest : rest with _ | ⟨r, rs⟩
        · rw [hrest] at hcon
          simp at hcon
        · rw [hrest] at hcon
          simp only [List.head?_cons, Option.some.injEq] at hcon
          have h2 := hch'.1 r (by rw [hrest]; rfl)
          rcases h2 with h | h
          · exact h hlnil
          · exact h hcon
      rw [ih (fun x hx => hfix x (List.mem_cons_of_mem l hx)) hch'.2 true fun _ => hhead,
        hlnil]

theorem cleanLines_newline_free :
    ∀ (ls : List (List Char)) (b : Bool), (∀ l ∈ ls, ('\n') ∉ l) →
      ∀ l ∈ cleanLines ls b, ('\n') ∉ l := by
  intro ls
  induction ls with
  | nil =>
    intro b _ l hl
    simp [cleanLines] at hl
  | cons x rest ih =>
    intro b hin l hl
    simp only [cleanLines] at hl
    by_cases hx : pyStrip x ≠ []
    · rw [if_pos hx] at hl
      rcases List.mem_cons.mp hl with rfl | hl'
      · intro hmem
        exact hin x (List.mem_cons_self x rest) (mem_pyStrip hmem)
      · exact ih false (fun m hm => hin m (List.mem_cons_of_mem x hm)) l hl'
    · rw [if_neg hx] at hl
      by_cases hb : b = true
      · rw [if_pos hb] at hl
        exact ih true (fun m hm => hin m (List.mem_cons_of_mem x hm)) l hl
      · rw [if_neg hb] at hl
        rcases List.mem_cons.mp hl with rfl | hl'
        · simp
        · exact ih true (fun m hm => hin m (List.mem_cons_of_mem x hm)) l hl'

/-! ## Lemmas about `calculate_score` -/

theorem calculate_score_breakdown (text : List Char) :
    (ComplianceScorer.calculate_score text).breakdown =
      { critical := (critical_keywords.map fun kw => countSub kw (pyLower text)).sum
        high := (high_keywords.map fun kw => countSub kw (pyLower text)).sum
        medium := (medium_keywords.map fun kw => countSub kw (pyLower text)).sum
        low := (low_keywords.map fun kw => countSub kw (pyLower text)).sum } :=
  rfl

theorem calculate_score_total_gaps (text : List Char) :
    (ComplianceScorer.calculate_score text).total_gaps =
      (ComplianceScorer.calculate_score text).breakdown.critical +
        (ComplianceScorer.calculate_score text).breakdown.high +
        (ComplianceScorer.calculate_score text).breakdown.medium +
        (ComplianceScorer.calculate_score text).breakdown.low :=
  rfl

theorem calculate_score_score (text : List Char) :
    (ComplianceScorer.calculate_score text).compliance_score =
      scoreFromBreakdown (ComplianceScorer.calculate_score text).breakdown :=
  rfl

theorem calculate_score_risk (text : List Char) :
    (ComplianceScorer.calculate_score text).risk_level =
      _get_risk_level (ComplianceScorer.calculate_score text).compliance_score :=
  rfl

/-- The two branches of the score computation agree with the clamped
weighted-deduction formula. -/
theorem scoreFromBreakdown_eq_clamp (b : Breakdown) :
    scoreFromBreakdown b =
      max 0 (100 -
        ((b.critical : Int) * 10 + (b.high : Int) * 5 + (b.medium : Int) * 2 +
          (b.low : Int) * 1)) := by
  unfold scoreFromBreakdown
  split
  · rename_i h
    obtain ⟨h1, h2, h3, h4⟩ : b.critical = 0 ∧ b.high = 0 ∧ b.medium = 0 ∧ b.low = 0 := by
      omega
    rw [h1, h2, h3, h4]
    decide
  · rfl

theorem scoreFromBreakdown_nonneg (b : Breakdown) : 0 ≤ scoreFromBreakdown b := by
  rw [scoreFromBreakdown_eq_clamp]
  exact le_max_left 0 _

theorem scoreFromBreakdown_le_100 (b : Breakdown) : scoreFromBreakdown b ≤ 100 := by
  rw [scoreFromBreakdown_eq_clamp]
  rw [max_le_iff]
  constructor
  · omega
  · have h1 : (0 : Int) ≤ (b.critical : Int) := Int.ofNat_nonneg _
    have h2 : (0 : Int) ≤ (b.high : Int) := Int.ofNat_nonneg _
    have h3 : (0 : Int) ≤ (b.medium : Int) := Int.ofNat_nonneg _
    have h4 : (0 : Int) ≤ (b.low : Int) := Int.ofNat_nonneg _
    omega

/-- The lines of the cleaned text are exactly the cleaned lines. -/
theorem clean_text_splitOn (text : List Char) :
    (_clean_text text).splitOn '\n' = cleanLines (text.splitOn '\n') false := by
  unfold _clean_text
  apply List.splitOn_intercalate
  · intro l hl
    exact cleanLines_newline_free (text.splitOn '\n') false
      (fun m hm => splitOn_sep_not_mem '\n' text m hm) l hl
  · apply cleanLines_ne_nil
    have : text.splitOn '\n' = text.splitOnP (· == '\n') := rfl
    rw [this]
    exact List.splitOnP_ne_nil _ text

/-! ## Claim theorems -/

/-- C1: for every input string, `calculate_score` returns a `ComplianceScore`
whose total gap count equals the sum of the four breakdown bucket counts,
whose numeric score equals `max 0 (100 - (10·critical + 5·high + 2·medium +
1·low))`, and whose score is exactly `100` when the total gap count is `0`. -/
theorem calculate_score_invariants (text : List Char) :
    (ComplianceScorer.calculate_score text).total_gaps =
        (ComplianceScorer.calculate_score text).breakdown.critical +
        (ComplianceScorer.calculate_score text).breakdown.high +
        (ComplianceScorer.calculate_score text).breakdown.medium +
        (ComplianceScorer.calculate_score text).breakdown.low ∧
      (ComplianceScorer.calculate_score text).compliance_score =
        max 0 (100 -
          (((ComplianceScorer.calculate_score text).breakdown.critical : Int) * 10 +
            ((ComplianceScorer.calculate_score text).breakdown.high : Int) * 5 +
            ((ComplianceScorer.calculate_score text).breakdown.medium : Int) * 2 +
            ((ComplianceScorer.calculate_score text).breakdown.low : Int) * 1)) ∧
      ((ComplianceScorer.calculate_score text).total_gaps = 0 →
        (ComplianceScorer.calculate_score text).compliance_score = 100) := by
  refine ⟨calculate_score_total_gaps text, ?_, ?_⟩
  · rw [calculate_score_score, scoreFromBreakdown_eq_clamp]
  · intro h
    rw [calculate_score_total_gaps] at h
    rw [calculate_score_score]
    unfold scoreFromBreakdown
    rw [if_pos (by omega)]

/-- Witness for C1 at the empty input. -/
theorem calculate_score_invariants_witness :
    (ComplianceScorer.calculate_score ("".toList)).total_gaps = 0 ∧
      (ComplianceScorer.calculate_score ("".toList)).compliance_score = 100 :=
  ⟨by decide, (calculate_score_invariants ("".toList)).2.2 (by decide)⟩

/-- C2: `calculate_score` is total, and on every input whose lower-cased text
contains no severity marker as a substring, all four bucket counts are `0`,
the total is `0`, the score is exactly `100` and the risk label is
"Very Low". -/
theorem calculate_score_no_markers (text : List Char)
    (h : ∀ q ∈ critical_keywords ++ high_keywords ++ medium_keywords ++ low_keywords,
      ¬ q <:+: pyLower text) :
    (ComplianceScorer.calculate_score text).breakdown =
        { critical := 0, high := 0, medium := 0, low := 0 } ∧
      (ComplianceScorer.calculate_score text).total_gaps = 0 ∧
      (ComplianceScorer.calculate_score text).compliance_score = 100 ∧
      (ComplianceScorer.calculate_score text).risk_level = "Very Low" := by
  have hz : ∀ q ∈ critical_keywords ++ high_keywords ++ medium_keywords ++ low_keywords,
      countSub q (pyLower text) = 0 := fun q hq =>
    countSub_eq_zero_of_not_infix (all_keywords_ne_nil q hq) (h q hq)
  have hsum : ∀ ks : List (List Char),
      (∀ q ∈ ks, q ∈ critical_keywords ++ high_keywords ++ medium_keywords ++ low_keywords) →
      (ks.map fun kw => countSub kw (pyLower text)).sum = 0 := by
    intro ks hks
    apply List.sum_eq_zero
    intro x hx
    obtain ⟨q, hq, rfl⟩ := List.mem_map.mp hx
    exact hz q (hks q hq)
  have hc := hsum critical_keywords fun q hq => by simp [List.mem_append]; tauto
  have hh := hsum high_keywords fun q hq => by simp [List.mem_append]; tauto
  have hm := hsum medium_keywords fun q hq => by simp [List.mem_append]; tauto
  have hl := hsum low_keywords fun q hq => by simp [List.mem_append]; tauto
  have hb : (ComplianceScorer.calculate_score text).breakdown =
      { critical := 0, high := 0, medium := 0, low := 0 } := by
    rw [calculate_score_breakdown, hc, hh, hm, hl]
  refine ⟨hb, ?_, ?_, ?_⟩
  · rw [calculate_score_total_gaps, hb]
    rfl
  · rw [calculate_score_score, hb]
    decide
  · rw [calculate_score_risk, calculate_score_score, hb]
    decide

/-- Witness for C2 at the empty input. -/
theorem calculate_score_no_markers_witness :
    (ComplianceScorer.calculate_score ("".toList)).compliance_score = 100 ∧
      (ComplianceScorer.calculate_score ("".toList)).risk_level = "Very Low" := by
  have hmk : ∀ q ∈ critical_keywords ++ high_keywords ++ medium_keywords ++ low_keywords,
      ¬ q <:+: pyLower ("".toList) := by
    intro q hq hinf
    obtain ⟨u, v, huv⟩ := hinf
    have hq' : q = [] := by
      have : u ++ q ++ v = [] := huv
      rcases List.append_eq_nil.mp this with ⟨h1, _⟩
      rcases List.append_eq_nil.mp h1 with ⟨_, h2⟩
      exact h2
    exact all_keywords_ne_nil q hq hq'
  exact ⟨(calculate_score_no_markers ("".toList) hmk).2.2.1,
    (calculate_score_no_markers ("".toList) hmk).2.2.2⟩

/-- C3: the numeric score produced by the scorer is `scoreFromBreakdown` of
its breakdown, and `scoreFromBreakdown` is monotonically non-increasing in
every bucket count. -/
theorem compliance_score_monotone :
    (∀ text : List Char,
      (ComplianceScorer.calculate_score text).compliance_score =
        scoreFromBreakdown (ComplianceScorer.calculate_score text).breakdown) ∧
      ∀ b₁ b₂ : Breakdown, b₁.critical ≤ b₂.critical → b₁.high ≤ b₂.high →
        b₁.medium ≤ b₂.medium → b₁.low ≤ b₂.low →
        scoreFromBreakdown b₂ ≤ scoreFromBreakdown b₁ := by
  refine ⟨calculate_score_score, ?_⟩
  intro b₁ b₂ h1 h2 h3 h4
  rw [scoreFromBreakdown_eq_clamp, scoreFromBreakdown_eq_clamp]
  apply max_le_max (le_refl (0 : Int))
  omega

/-- Witness for C3: adding one critical gap cannot raise the score. -/
theorem compliance_score_monotone_witness :
    scoreFromBreakdown { critical := 2, high := 1, medium := 1, low := 1 } ≤
      scoreFromBreakdown { critical := 1, high := 1, medium := 1, low := 1 } :=
  compliance_score_monotone.2
    { critical := 1, high := 1, medium := 1, low := 1 }
    { critical := 2, high := 1, medium := 1, low := 1 }
    (by decide) (by decide) (by decide) (by decide)

/-- C4: the risk labels partition the integers exactly at the documented
boundaries: `≥ 90` is "Very Low", `80..89` is "Low", `70..79` is "Moderate",
`60..69` is "High" and `≤ 59` is "Critical". -/
theorem risk_level_thresholds (score : Int) :
    (90 ≤ score ↔ _get_risk_level score = "Very Low") ∧
      ((80 ≤ score ∧ score ≤ 89) ↔ _get_risk_level score = "Low") ∧
      ((70 ≤ score ∧ score ≤ 79) ↔ _get_risk_level score = "Moderate") ∧
      ((60 ≤ score ∧ score ≤ 69) ↔ _get_risk_level score = "High") ∧
      (score ≤ 59 ↔ _get_risk_level score = "Critical") := by
  unfold _get_risk_level
  split_ifs with h1 h2 h3 h4 <;>
    refine ⟨?_, ?_, ?_, ?_, ?_⟩ <;>
    constructor <;>
    intro h <;>
    first
      | rfl
      | (exact absurd h (by decide))
      | omega

/-- C5: the numeric score always lies in the closed interval `[0, 100]`. -/
theorem calculate_score_in_range (text : List Char) :
    0 ≤ (ComplianceScorer.calculate_score text).compliance_score ∧
      (ComplianceScorer.calculate_score text).compliance_score ≤ 100 := by
  rw [calculate_score_score]
  exact ⟨scoreFromBreakdown_nonneg _, scoreFromBreakdown_le_100 _⟩

/-- C6 counterexample: the medium bucket is a non-overlapping count.  On the
input "mediumedium" the marker "medium" occurs at two (overlapping)
positions, but Python's `str.count` — and hence the scorer — counts it only
once, so the bucket count differs from the overlapping-occurrence sum. -/
theorem bucket_count_not_overlapping :
    (ComplianceScorer.calculate_score ("mediumedium".toList)).breakdown.medium = 1 ∧
      (medium_keywords.map fun kw => countPos kw (pyLower ("mediumedium".toList))).sum = 2 ∧
      (ComplianceScorer.calculate_score ("mediumedium".toList)).breakdown.medium ≠
        (medium_keywords.map fun kw => countPos kw (pyLower ("mediumedium".toList))).sum := by
  refine ⟨by decide, by decide, by decide⟩

/-- C6 (amended): every bucket count is the sum over the bucket's markers of
the non-overlapping, case-insensitive naive substring counts of Python's
`str.count`.  For the critical, high and low buckets (whose markers are all
border-free) this equals the possibly-overlapping position count; the medium
bucket (whose marker "medium" has the border "m") is bounded above by it. -/
theorem bucket_counts_characterization (text : List Char) :
    (ComplianceScorer.calculate_score text).breakdown.critical =
        (critical_keywords.map fun kw => countPos kw (pyLower text)).sum ∧
      (ComplianceScorer.calculate_score text).breakdown.high =
        (high_keywords.map fun kw => countPos kw (pyLower text)).sum ∧
      (ComplianceScorer.calculate_score text).breakdown.low =
        (low_keywords.map fun kw => countPos kw (pyLower text)).sum ∧
      (ComplianceScorer.calculate_score text).breakdown.medium =
        (medium_keywords.map fun kw => countSub kw (pyLower text)).sum ∧
      (ComplianceScorer.calculate_score text).breakdown.medium ≤
        (medium_keywords.map fun kw => countPos kw (pyLower text)).sum := by
  have hne : ∀ q ∈ critical_keywords ++ high_keywords ++ medium_keywords ++ low_keywords,
      q ≠ [] := all_keywords_ne_nil
  have hmem : ∀ q,
      (q ∈ critical_keywords ∨ q ∈ high_keywords ∨ q ∈ medium_keywords ∨ q ∈ low_keywords) →
      q ∈ critical_keywords ++ high_keywords ++ medium_keywords ++ low_keywords := by
    intro q hq
    simp [List.mem_append]
    tauto
  have hcrit : (critical_keywords.map fun kw => countSub kw (pyLower text)) =
      critical_keywords.map fun kw => countPos kw (pyLower text) :=
    List.map_congr_left fun q hq =>
      countSub_eq_countPos (hne q (hmem q (Or.inl hq)))
        (borderFree_of_borderFreeB (critical_keywords_borderFree q hq)) _
  have hhigh : (high_keywords.map fun kw => countSub kw (pyLower text)) =
      high_keywords.map fun kw => countPos kw (pyLower text) :=
    List.map_congr_left fun q hq =>
      countSub_eq_countPos (hne q (hmem q (Or.inr (Or.inl hq))))
        (borderFree_of_borderFreeB (high_keywords_borderFree q hq)) _
  have hlow : (low_keywords.map fun kw => countSub kw (pyLower text)) =
      low_keywords.map fun kw => countPos kw (pyLower text) :=
    List.map_congr_left fun q hq =>
      countSub_eq_countPos (hne q (hmem q (Or.inr (Or.inr (Or.inr hq)))))
        (borderFree_of_borderFreeB (low_keywords_borderFree q hq)) _
  refine ⟨?_, ?_, ?_, rfl, ?_⟩
  · exact congrArg List.sum hcrit
  · exact congrArg List.sum hhigh
  · exact congrArg List.sum hlow
  · show (medium_keywords.map fun kw => countSub kw (pyLower text)).sum ≤ _
    apply List.sum_le_sum
    intro q hq
    exact countSub_le_countPos (hne q (hmem q (Or.inr (Or.inr (Or.inl hq))))) _

/-- C7 counterexample: the output of `ExecutiveSummary.generate` embeds the
current date, so two invocations with the same analysis text and the same
score can return different strings. -/
theorem generate_depends_on_date :
    ExecutiveSummary.generate "January 01, 2026" ("".toList)
        { compliance_score := 100, compliance_percentage := "100%", total_gaps := 0,
          breakdown := { critical := 0, high := 0, medium := 0, low := 0 },
          risk_level := "Very Low" } ≠
      ExecutiveSummary.generate "February 01, 2026" ("".toList)
        { compliance_score := 100, compliance_percentage := "100%", total_gaps := 0,
          breakdown := { critical := 0, high := 0, medium := 0, low := 0 },
          risk_level := "Very Low" } := by
  decide

/-- C7 (amended): `generate` is deterministic once the current date is fixed,
and it reads the analysis text only through the case-insensitive presence of
the substrings "top 5" and "priority". -/
theorem generate_deterministic (today : String) (x y : List Char) (s : ComplianceScore)
    (h5 : pyIn ("top 5".toList) (pyLower x) = pyIn ("top 5".toList) (pyLower y))
    (hpr : pyIn ("priority".toList) (pyLower x) = pyIn ("priority".toList) (pyLower y)) :
    ExecutiveSummary.generate today x s = ExecutiveSummary.generate today y s := by
  unfold ExecutiveSummary.generate
  rw [h5, hpr]

/-- Witness for C7 (amended): two different analysis texts without the
trigger substrings produce the same summary on the same day. -/
theorem generate_deterministic_witness :
    ExecutiveSummary.generate "October 12, 2025" ("alpha".toList)
        { compliance_score := 73, compliance_percentage := "73%", total_gaps := 4,
          breakdown := { critical := 2, high := 1, medium := 1, low := 0 },
          risk_level := "Moderate" } =
      ExecutiveSummary.generate "October 12, 2025" ("beta".toList)
        { compliance_score := 73, compliance_percentage := "73%", total_gaps := 4,
          breakdown := { critical := 2, high := 1, medium := 1, low := 0 },
          risk_level := "Moderate" } :=
  generate_deterministic "October 12, 2025" ("alpha".toList) ("beta".toList)
    { compliance_score := 73, compliance_percentage := "73%", total_gaps := 4,
      breakdown := { critical := 2, high := 1, medium := 1, low := 0 },
      risk_level := "Moderate" }
    (by decide) (by decide)

/-- C8 counterexample: the timeline block has no line for the low bucket — it
is identical whether the low count is `0` or `5`. -/
theorem timeline_ignores_low_bucket :
    timelineLines { critical := 0, high := 0, medium := 0, low := 5 } =
        timelineLines { critical := 0, high := 0, medium := 0, low := 0 } ∧
      ({ critical := 0, high := 0, medium := 0, low := 5 } : Breakdown).low = 5 ∧
      ({ critical := 0, high := 0, medium := 0, low := 0 } : Breakdown).low = 0 :=
  ⟨rfl, rfl, rfl⟩

/-- C8 (amended): the timeline block contains the critical, high and medium
lines exactly when the corresponding bucket count is positive, contains no
other lines (in particular none for the low bucket), and always ends with the
fixed long-term-monitoring line. -/
theorem timeline_block_structure (b : Breakdown) :
    (tlImmediate ∈ timelineLines b ↔ 0 < b.critical) ∧
      (tlShortTerm ∈ timelineLines b ↔ 0 < b.high) ∧
      (tlMediumTerm ∈ timelineLines b ↔ 0 < b.medium) ∧
      (timelineLines b).getLast? = some tlLongTerm ∧
      ∀ l ∈ timelineLines b,
        l = tlImmediate ∨ l = tlShortTerm ∨ l = tlMediumTerm ∨ l = tlLongTerm := by
  unfold timelineLines
  split_ifs with h1 h2 h3 <;>
    simp_all [tlImmediate, tlShortTerm, tlMediumTerm, tlLongTerm, Nat.pos_iff_ne_zero]

/-- C9: the narrative export omits the compliance-score block entirely when
no compliance score is present, and also when score inclusion is not
requested: in both cases the emitted content equals the content of a
score-free export. -/
theorem export_markdown_omits_score_block (now : String) (results : AnalysisResults)
    (include_score : Bool)
    (h : results.compliance_score = none ∨ include_score = false) :
    ResultExporter.export_md_content now results include_score =
      ResultExporter.export_md_content now
        { results with compliance_score := none } false := by
  obtain ⟨fw, mu, cs, an, re⟩ := results
  rcases cs with _ | s
  · cases include_score <;> rfl
  · rcases h with h | h
    · simp at h
    · subst h
      rfl

/-- Witness for C9: a result collection with a score present, exported with
`include_score = false`. -/
theorem export_markdown_omits_score_block_witness :
    ResultExporter.export_md_content "2026-01-01 00:00:00"
        { framework := some "NIST CSF"
          model_used := some "llama3"
          compliance_score := some
            { compliance_score := 73, compliance_percentage := "73%", total_gaps := 4,
              breakdown := { critical := 2, high := 1, medium := 1, low := 0 },
              risk_level := "Moderate" }
          analysis := some "gap analysis body"
          remediation := none } false =
      ResultExporter.export_md_content "2026-01-01 00:00:00"
        { framework := some "NIST CSF"
          model_used := some "llama3"
          compliance_score := none
          analysis := some "gap analysis body"
          remediation := none } false :=
  export_markdown_omits_score_block "2026-01-01 00:00:00"
    { framework := some "NIST CSF"
      model_used := some "llama3"
      compliance_score := some
        { compliance_score := 73, compliance_percentage := "73%", total_gaps := 4,
          breakdown := { critical := 2, high := 1, medium := 1, low := 0 },
          risk_level := "Moderate" }
      analysis := some "gap analysis body"
      remediation := none } false (Or.inr rfl)

/-- C10: `_clean_text` is idempotent, and the lines of its output never
contain two consecutive blank lines. -/
theorem clean_text_idempotent (text : List Char) :
    _clean_text (_clean_text text) = _clean_text text ∧
      List.Chain' (fun a b : List Char => a ≠ [] ∨ b ≠ [])
        ((_clean_text text).splitOn '\n') := by
  have hsplit := clean_text_splitOn text
  constructor
  · have h1 : _clean_text (_clean_text text) =
        List.intercalate ['\n'] (cleanLines ((_clean_text text).splitOn '\n') false) := rfl
    rw [h1, hsplit,
      cleanLines_id (cleanLines (text.splitOn '\n') false)
        (cleanLines_stripped (text.splitOn '\n') false)
        (cleanLines_no_two_blanks (text.splitOn '\n') false).1 false (by simp)]
    rfl
  · rw [hsplit]
    exact (cleanLines_no_two_blanks (text.splitOn '\n') false).1

end PolicyGap
